import Mathlib

/-!
Shallow embedding of the Discord favourite GIF downloader (src/main.py):
the catalog merge logic of DataManager, the URL sanitization, host
classification, tenor embed-page extraction and collision-safe download of
FavoritedGIF, and a persisted-record round-trip model.  Network, HTML
parsing and the file system are passed explicitly (a request oracle, a
page-to-meta-tags oracle, and the list of existing file paths).
-/

namespace GifDl

/-! ### Character-list helpers (models of the Python string primitives used) -/

/-- Split a character list at the first occurrence of c: returns the parts
before and after it, or none when c does not occur (models str.find and
str.split with maxsplit 1, and str.partition). -/
def breakAtFirst (c : Char) : List Char → Option (List Char × List Char)
  | [] => none
  | x :: xs =>
    if x = c then some ([], xs)
    else
      match breakAtFirst c xs with
      | some (p, q) => some (x :: p, q)
      | none => none

/-- Split a character list at the last occurrence of c: returns the parts
before and after it, or none when c does not occur (models str.rfind and
str.rpartition). -/
def breakAtLast (c : Char) : List Char → Option (List Char × List Char)
  | [] => none
  | x :: xs =>
    match breakAtLast c xs with
    | some (p, q) => some (x :: p, q)
    | none => if x = c then some ([], xs) else none

/-- Python str.endswith. -/
def strEndsWith (s suffix : String) : Bool :=
  suffix.data.isSuffixOf s.data

/-! ### urllib.parse embedding

Faithful to CPython urllib.parse.urlsplit / urlparse restricted to the
behaviour the program exercises: scheme recognition, netloc after a
leading double slash, fragment then query split, parameter split, and the
hostname accessor. -/

/-- The characters CPython accepts inside a URL scheme. -/
def isSchemeChar (c : Char) : Bool :=
  c.isAlpha || c.isDigit || c = '+' || c = '-' || c = '.'

/-- Result of urlsplit: scheme, netloc, path, query, fragment. -/
structure SplitResult where
  scheme : String
  netloc : String
  path : String
  query : String
  fragment : String
deriving DecidableEq, Repr

/-- Result of urlparse: urlsplit plus the path parameters component. -/
structure ParseResult where
  scheme : String
  netloc : String
  path : String
  params : String
  query : String
  fragment : String
deriving DecidableEq, Repr

/-- Scheme extraction of urlsplit: a nonempty run of scheme characters
before the first colon, starting with an ASCII letter, is the scheme
(lower-cased); otherwise there is no scheme. -/
def schemeSplit (l : List Char) : List Char × List Char :=
  match breakAtFirst ':' l with
  | some (pre, post) =>
    if !pre.isEmpty && (l.headD ' ').toNat < 128 && (l.headD ' ').isAlpha
        && pre.all isSchemeChar then
      (pre.map Char.toLower, post)
    else ([], l)
  | none => ([], l)

/-- urllib.parse.urlsplit. -/
def urlsplit (url : String) : SplitResult :=
  let (schemeL, rest) := schemeSplit url.data
  let (netlocL, rest2) :=
    match rest with
    | '/' :: '/' :: t =>
      (t.takeWhile (fun c => !(c = '/' || c = '?' || c = '#')),
       t.dropWhile (fun c => !(c = '/' || c = '?' || c = '#')))
    | _ => ([], rest)
  let (rest3, fragL) :=
    match breakAtFirst '#' rest2 with
    | some (a, b) => (a, b)
    | none => (rest2, [])
  let (pathL, queryL) :=
    match breakAtFirst '?' rest3 with
    | some (a, b) => (a, b)
    | none => (rest3, [])
  ⟨⟨schemeL⟩, ⟨netlocL⟩, ⟨pathL⟩, ⟨queryL⟩, ⟨fragL⟩⟩

/-- urllib.parse splitparams helper: split the path parameters off at the
first semicolon of the last path segment. -/
def splitparams (l : List Char) : List Char × List Char :=
  match breakAtLast '/' l with
  | some (pre, post) =>
    match breakAtFirst ';' post with
    | some (a, b) => (pre ++ '/' :: a, b)
    | none => (l, [])
  | none =>
    match breakAtFirst ';' l with
    | some (a, b) => (a, b)
    | none => (l, [])

/-- urllib.parse.urlparse. -/
def urlparse (url : String) : ParseResult :=
  let s := urlsplit url
  let (pathL, paramsL) :=
    if ';' ∈ s.path.data then splitparams s.path.data else (s.path.data, [])
  ⟨s.scheme, s.netloc, ⟨pathL⟩, ⟨paramsL⟩, s.query, s.fragment⟩

/-- The hostname accessor of a split result: the netloc after the last
at-sign, up to a port colon (or between square brackets), lower-cased;
none when empty. -/
def hostnameOf (netloc : List Char) : Option String :=
  let hostinfo :=
    match breakAtLast '@' netloc with
    | some (_, q) => q
    | none => netloc
  let host :=
    match breakAtFirst '[' hostinfo with
    | some (_, bracketed) =>
      match breakAtFirst ']' bracketed with
      | some (h, _) => h
      | none => bracketed
    | none =>
      match breakAtFirst ':' hostinfo with
      | some (h, _) => h
      | none => hostinfo
  if host.isEmpty then none else some ⟨host.map Char.toLower⟩

/-! ### The FavoritedGIF entry and the persisted record -/

/-- One record of the persisted catalog file (the dict shape produced by
FavoritedGIF.serialize and consumed by FavoritedGIF.__init__). -/
structure GifRecord where
  width : Int
  height : Int
  src : String
  url : String
  format : String
  path : Option String
deriving DecidableEq, Repr

/-- FavoritedGIF.__init__: builds the entry from a record dict; the path
key defaults to None when absent (an absent key and an explicit null are
both modelled by the none value). -/
structure FavoritedGIF where
  w : Int
  h : Int
  src : String
  url : String
  format : String
  path : Option String
deriving DecidableEq, Repr

def FavoritedGIF.init (data : GifRecord) : FavoritedGIF :=
  ⟨data.width, data.height, data.src, data.url, data.format, data.path⟩

/-- FavoritedGIF.url_host property. -/
def FavoritedGIF.url_host (g : FavoritedGIF) : Option String :=
  hostnameOf (urlparse g.url).netloc.data

/-- FavoritedGIF.sanitized_url property: when the parsed path ends in
".gif" the query and fragment are dropped, otherwise the URL is kept. -/
def FavoritedGIF.sanitized_url (g : FavoritedGIF) : String :=
  let url_comps := urlparse g.url
  if strEndsWith url_comps.path ".gif" then
    url_comps.scheme ++ "://" ++ url_comps.netloc ++ url_comps.path
  else g.url

/-- FavoritedGIF.serialize: back to the persisted record shape. -/
def FavoritedGIF.serialize (g : FavoritedGIF) : GifRecord :=
  ⟨g.w, g.h, g.src, g.url, g.format, g.path⟩

/-- Convenience constructor for a fresh entry with a given url. -/
def mkGif (url : String) : FavoritedGIF :=
  ⟨0, 0, "s", url, "IMAGE", none⟩

example : (mkGif "https://h/a.gif?x=1#y").sanitized_url = "https://h/a.gif" := by decide
example : (mkGif "https://h/view/1").sanitized_url = "https://h/view/1" := by decide
example : (mkGif "https://tenor.com/view/x-123").url_host = some "tenor.com" := by decide

/-! ### Download model

The file system is the list of already existing file paths, the network is
an oracle from a URL to either its body or a transfer failure, and the
HTML parser is an oracle from a page body to its meta tags.  A download
step returns the updated entry, the updated file list and the list of URLs
that were requested; a raised exception is the error case of Except and,
as in the source (which installs no handler), propagates. -/

/-- os.path.basename: the part after the final slash. -/
def basename (p : String) : String :=
  match breakAtLast '/' p.data with
  | some (_, post) => ⟨post⟩
  | none => p

/-- os.path.splitext: split at the last dot, unless that dot lies before
the last slash or every character between them is itself a dot (leading
dots of the base name never start an extension). -/
def splitext (p : String) : String × String :=
  match breakAtLast '.' p.data with
  | none => (p, "")
  | some (pre, post) =>
    if '/' ∈ post then (p, "")
    else
      let basePart :=
        match breakAtLast '/' pre with
        | some (_, q) => q
        | none => pre
      if basePart.any (fun c => decide (c ≠ '.')) then (⟨pre⟩, ⟨'.' :: post⟩)
      else (p, "")

/-- os.path.join for the fixed downloads directory and a relative name. -/
def joinPath (d f : String) : String := d ++ "/" ++ f

/-- The k-th candidate path the collision loop can produce: the plain
name for k zero, the name with the numeric suffix k otherwise. -/
def candPath (name ext : String) : Nat → String
  | 0 => joinPath "downloads" (name ++ ext)
  | k + 1 => joinPath "downloads" (name ++ "-" ++ toString (k + 1) ++ ext)

/-- The while loop of download_generic: while the current candidate path
exists, move to the candidate with the next numeric suffix.  The fuel
argument only bounds the iteration count of the shallow embedding; the
callers always pass enough of it. -/
def collideLoop (fs : List String) (name ext : String) : Nat → Nat → String → String
  | 0, _, cur => cur
  | fuel + 1, i, cur =>
    if cur ∈ fs then
      collideLoop fs name ext fuel (i + 1)
        (joinPath "downloads" (name ++ "-" ++ toString i ++ ext))
    else cur

/-- The file-path choice of download_generic: base name of the URL joined
under downloads, with the collision loop applied. -/
def choosePath (fs : List String) (url : String) : String :=
  let file_name := basename url
  let ne := splitext file_name
  collideLoop fs ne.1 ne.2 (fs.length + 1) 1 (joinPath "downloads" file_name)

/-- The errors a download step can raise: a requests transfer failure, or
the KeyError of reading a missing content attribute. -/
inductive DlError where
  | network : DlError
  | keyErr : DlError
deriving DecidableEq, Repr

/-- FavoritedGIF. download_generic (underscore-prefixed in the source):
choose a collision-free path, fetch the URL and record the written file;
a transfer failure is raised before any file is created. -/
def FavoritedGIF.download_generic (g : FavoritedGIF) (url : String)
    (net : String → Except Unit String) (fs : List String) :
    Except DlError (FavoritedGIF × List String × List String) :=
  let file_path := choosePath fs url
  match net url with
  | .error _ => .error .network
  | .ok _content => .ok ({ g with path := some file_path }, file_path :: fs, [url])

/-- One meta tag of a parsed page: its attribute mapping. -/
structure MetaTag where
  attrib : List (String × String)
deriving DecidableEq, Repr

/-- Python attribute-mapping lookup. -/
def MetaTag.attribGet (t : MetaTag) (k : String) : Option String :=
  (t.attrib.find? (fun p => p.1 == k)).map (·.2)

/-- FavoritedGIF. extract_tenor_url (underscore-prefixed in the source):
return the content attribute of the first meta tag whose itemprop
attribute is contentUrl; None when no tag matches; reading the content
attribute of a matching tag that lacks it raises KeyError. -/
def extract_tenor_url : List MetaTag → Except DlError (Option String)
  | [] => .ok none
  | t :: ts =>
    if t.attribGet "itemprop" = some "contentUrl" then
      match t.attribGet "content" with
      | some c => .ok (some c)
      | none => .error .keyErr
    else extract_tenor_url ts

/-- FavoritedGIF.download: skip an entry whose path is set; download the
sanitized URL directly when it ends in ".gif"; otherwise scrape tenor
pages; otherwise print the unsupported host and do nothing. -/
def FavoritedGIF.download (g : FavoritedGIF) (net : String → Except Unit String)
    (htmlMeta : String → List MetaTag) (fs : List String) :
    Except DlError (FavoritedGIF × List String × List String) :=
  match g.path with
  | some _ => .ok (g, fs, [])
  | none =>
    if strEndsWith g.sanitized_url ".gif" then
      g.download_generic g.sanitized_url net fs
    else if g.url_host = some "tenor.com" then
      match net g.sanitized_url with
      | .error _ => .error .network
      | .ok body =>
        match extract_tenor_url (htmlMeta body) with
        | .error e => .error e
        | .ok (some u) =>
          (g.download_generic u net fs).map
            (fun r => (r.1, r.2.1, g.sanitized_url :: r.2.2))
        | .ok none => .ok (g, fs, [g.sanitized_url])
    else .ok (g, fs, [])

/-- The download pass of main: each entry in turn; an exception raised by
one entry aborts the whole run, as the source installs no handler. -/
def downloadAll (net : String → Except Unit String)
    (htmlMeta : String → List MetaTag) :
    List FavoritedGIF → List String → Except DlError (List FavoritedGIF × List String)
  | [], fs => .ok ([], fs)
  | g :: gs, fs =>
    match g.download net htmlMeta fs with
    | .error e => .error e
    | .ok (g', fs', _) =>
      match downloadAll net htmlMeta gs fs' with
      | .error e => .error e
      | .ok (gs', fs'') => .ok (g' :: gs', fs'')

example :
    choosePath ["downloads/a.gif"] "https://h/a.gif" = "downloads/a-1.gif" := by decide
example :
    choosePath ["downloads/a.gif", "downloads/a-1.gif"] "https://h/a.gif"
      = "downloads/a-2.gif" := by decide
example :
    downloadAll (fun _ => .ok "x") (fun _ => []) [mkGif "https://h/a.gif"] []
      = .ok ([⟨0, 0, "s", "https://h/a.gif", "IMAGE", some "downloads/a.gif"⟩],
          ["downloads/a.gif"]) := by rfl

/-! ### DataManager -/

namespace DataManager

/-- The dedup loop of the initial-load branch of DataManager.merge,
exactly as written: a for loop over enumerate of the list that pops the
element at the enumeration index when its url was already seen.  Popping
does not rewind the enumeration cursor, so the element that follows a
popped one is never examined. -/
def dedupLoop (l : List GifRecord) (temp_gif_urls : List String) (i : Nat) : List GifRecord :=
  if h : i < l.length then
    let gif := l.get ⟨i, h⟩
    if gif.url ∈ temp_gif_urls then
      dedupLoop (l.eraseIdx i) temp_gif_urls (i + 1)
    else
      dedupLoop l (temp_gif_urls ++ [gif.url]) (i + 1)
  else l
termination_by l.length - i
decreasing_by
  · have := List.length_eraseIdx_of_lt h
    omega
  · omega

/-- DataManager.merge: on a missing or empty catalog, run the in-place
dedup loop on the incoming list and adopt it; otherwise append each
incoming record whose url is not among the urls the catalog held when the
call started. -/
def merge (gif_list : Option (List GifRecord)) (new_gif_list : List GifRecord) :
    List GifRecord :=
  match gif_list with
  | none => dedupLoop new_gif_list [] 0
  | some l =>
    if l.length = 0 then dedupLoop new_gif_list [] 0
    else
      let orig_url_list := l.map (·.url)
      new_gif_list.foldl
        (fun acc gif => if gif.url ∈ orig_url_list then acc else acc ++ [gif]) l

/-- DataManager.load: the persisted file either holds a record list or is
absent; absence initializes the empty catalog and reports false. -/
def loadFile (file : Option (List GifRecord)) : List GifRecord × Bool :=
  match file with
  | none => ([], false)
  | some l => (l, true)

/-- DataManager.save: the persisted file now holds the catalog. -/
def saveFile (gif_list : List GifRecord) : Option (List GifRecord) :=
  some gif_list

/-- DataManager.deserialize_gifs. -/
def deserialize_gifs (l : List GifRecord) : List FavoritedGIF :=
  l.map FavoritedGIF.init

/-- DataManager.serialize_gifs. -/
def serialize_gifs (gifs : List FavoritedGIF) : List GifRecord :=
  gifs.map FavoritedGIF.serialize

end DataManager

/-! ### Reference-level model of the initial-load merge

Python lists are heap objects passed by reference.  To state what the
initial-load branch of merge does to the very object the caller passed,
the heap is a map from addresses to record lists; pop mutates the list at
an address, and the assignment of new_gif_list to the catalog field stores
the address, not a copy. -/

/-- The heap: every address holds a record list. -/
def Heap : Type := Nat → List GifRecord

/-- In-place pop of the element at index i of the list at address r. -/
def Heap.popAt (st : Heap) (r : Nat) (i : Nat) : Heap :=
  Function.update st r ((st r).eraseIdx i)

/-- The dedup loop of the initial-load branch acting on the heap: each pop
rewrites the list object at the caller's address r. -/
def dedupLoopH (st : Heap) (r : Nat) (temp_gif_urls : List String) (i : Nat) : Heap :=
  if h : i < (st r).length then
    let gif := (st r).get ⟨i, h⟩
    if gif.url ∈ temp_gif_urls then
      dedupLoopH (st.popAt r i) r temp_gif_urls (i + 1)
    else
      dedupLoopH st r (temp_gif_urls ++ [gif.url]) (i + 1)
  else st
termination_by (st r).length - i
decreasing_by
  · have hlen : ((st.popAt r i) r).length = (st r).length - 1 := by
      simp [Heap.popAt, List.length_eraseIdx_of_lt h]
    omega
  · omega

/-- The initial-load branch of merge at the reference level: run the
in-place dedup loop on the object at the caller's address, then store that
same address in the catalog field. -/
def mergeEmptyH (st : Heap) (r : Nat) : Heap × Nat :=
  (dedupLoopH st r [] 0, r)

/-- An append through the catalog reference (the list.append calls the
later pipeline performs on the adopted list). -/
def catalogAppend (st : Heap) (ref : Nat) (gif : GifRecord) : Heap :=
  Function.update st ref (st ref ++ [gif])

/-! ### BatchRefresher -/

namespace BatchRefresher

/-- Modelled from the spec: the BatchRefresher component (sections 4.3 and
6 of the specification) is absent from src; an entry of its queue result,
a url together with the optional refreshed url. -/
structure RefreshEntry where
  url : String
  refreshed : Option String
deriving DecidableEq, Repr

/-- Modelled from the spec: partition of the queue into consecutive
batches of at most fifty, preserving the original order. -/
def batches50 : List α → List (List α)
  | [] => []
  | x :: xs => ((x :: xs).take 50) :: batches50 ((x :: xs).drop 50)
termination_by l => l.length
decreasing_by
  simp only [List.length_drop, List.length_cons]
  omega

/-- Modelled from the spec: set the refreshed url of the entry at a given
index. -/
def setRefreshed : List RefreshEntry → Nat → String → List RefreshEntry
  | [], _, _ => []
  | e :: es, 0, r => { e with refreshed := some r } :: es
  | e :: es, i + 1, r => e :: setRefreshed es i r

/-- Modelled from the spec: on a successful batch response, assign each
returned refreshed url to the entry whose queue position matches the
response position. -/
def applyBatch (es : List RefreshEntry) (pairs : List (Nat × String))
    (resps : List String) : List RefreshEntry :=
  (pairs.zip resps).foldl (fun acc pr => setRefreshed acc pr.1.1 pr.2) es

/-- Modelled from the spec: the refresh pass issues one request per batch
of the queue of entry-index and url pairs; a failed batch is skipped
whole, a successful one is applied positionally. -/
def refreshPass (es : List RefreshEntry) (queue : List (Nat × String))
    (respond : List String → Option (List String)) : List RefreshEntry :=
  (batches50 queue).foldl
    (fun acc batch =>
      match respond (batch.map (·.2)) with
      | none => acc
      | some rs => applyBatch acc batch rs) es

end BatchRefresher

/-! ### Supporting lemmas -/

theorem breakAtLast_decomp {c : Char} :
    ∀ {l p q : List Char}, breakAtLast c l = some (p, q) → l = p ++ c :: q := by
  intro l
  induction l with
  | nil => intro p q h; simp [breakAtLast] at h
  | cons x xs ih =>
    intro p q h
    rw [breakAtLast] at h
    rcases hx : breakAtLast c xs with _ | ⟨a, b⟩
    · rw [hx] at h
      by_cases hc : x = c
      · simp [hc] at h
        obtain ⟨hp, hq⟩ := h
        simp [← hp, ← hq, hc]
      · simp [hc] at h
    · rw [hx] at h
      simp at h
      obtain ⟨hp, hq⟩ := h
      subst hq
      rw [← hp, List.cons_append, ← ih hx]

/-- The two components of splitext concatenate back to the input. -/
theorem splitext_concat (p : String) : (splitext p).1 ++ (splitext p).2 = p := by
  rw [splitext]
  rcases hb : breakAtLast '.' p.data with _ | ⟨pre, post⟩
  · simp
  · have hdec := breakAtLast_decomp hb
    simp only
    by_cases hs : '/' ∈ post
    · simp [hs]
    · simp only [hs, if_false]
      rcases hany : (match breakAtLast '/' pre with
          | some (_, q) => q
          | none => pre).any (fun c => decide (c ≠ '.')) with _ | _
      · rw [hany]
        simp
      · rw [hany]
        simp only [if_true]
        apply String.ext
        rw [String.data_append]
        exact hdec.symm

/-! Injectivity of the decimal representation of Nat, needed to tell the
candidate paths of the collision loop apart. -/

/-- The digit characters that Nat.toDigitsCore accumulates for n. -/
def auxDigits (n : Nat) : List Char :=
  if n / 10 = 0 then [Nat.digitChar (n % 10)]
  else auxDigits (n / 10) ++ [Nat.digitChar (n % 10)]
termination_by n
decreasing_by
  have hn : n ≠ 0 := by
    intro h0
    subst h0
    simp at *
  exact Nat.div_lt_self (Nat.pos_of_ne_zero hn) (by omega)

theorem toDigitsCore_eq :
    ∀ (f n : Nat) (acc : List Char), n < f →
      Nat.toDigitsCore 10 f n acc = auxDigits n ++ acc := by
  intro f
  induction f with
  | zero => omega
  | succ f ih =>
    intro n acc h
    rw [Nat.toDigitsCore, auxDigits]
    by_cases h10 : n / 10 = 0
    · simp [h10]
    · have h1 : n ≠ 0 := by
        intro h0
        subst h0
        simp at h10
      have h2 : n / 10 < n := Nat.div_lt_self (Nat.pos_of_ne_zero h1) (by omega)
      simp only [h10, if_false]
      rw [ih (n / 10) _ (by omega)]
      simp

theorem repr_eq_auxDigits (n : Nat) : Nat.repr n = (auxDigits n).asString := by
  rw [Nat.repr, Nat.toDigits, toDigitsCore_eq (n + 1) n [] (by omega), List.append_nil]

/-- Decimal decoding of a digit-character list. -/
def decDigits (l : List Char) : Nat :=
  l.foldl (fun a c => a * 10 + (c.toNat - 48)) 0

theorem decDigits_snoc (xs : List Char) (c : Char) :
    decDigits (xs ++ [c]) = decDigits xs * 10 + (c.toNat - 48) := by
  simp [decDigits, List.foldl_append]

theorem digitChar_val {d : Nat} (h : d < 10) : (Nat.digitChar d).toNat - 48 = d := by
  interval_cases d <;> decide

theorem decDigits_auxDigits (n : Nat) : decDigits (auxDigits n) = n := by
  induction n using Nat.strong_induction_on with
  | _ n ih =>
    rw [auxDigits]
    by_cases h10 : n / 10 = 0
    · have hn : n < 10 := (Nat.div_eq_zero_iff (by omega)).mp h10
      simp [h10, decDigits, Nat.mod_eq_of_lt hn, digitChar_val hn]
    · have h1 : n ≠ 0 := by
        intro h0
        subst h0
        simp at h10
      have h2 : n / 10 < n := Nat.div_lt_self (Nat.pos_of_ne_zero h1) (by omega)
      rw [if_neg h10, decDigits_snoc, ih (n / 10) h2,
        digitChar_val (Nat.mod_lt n (by omega))]
      have := Nat.div_add_mod n 10
      omega

theorem natToString_inj {m n : Nat} (h : toString m = toString n) : m = n := by
  have hrepr : Nat.repr m = Nat.repr n := h
  rw [repr_eq_auxDigits, repr_eq_auxDigits] at hrepr
  have hdata : auxDigits m = auxDigits n := congrArg String.data hrepr
  have := congrArg decDigits hdata
  rwa [decDigits_auxDigits, decDigits_auxDigits] at this

theorem candPath_inj {name ext : String} {a b : Nat}
    (h : candPath name ext a = candPath name ext b) : a = b := by
  match a, b with
  | 0, 0 => rfl
  | 0, l + 1 =>
    have hdata := congrArg String.data h
    simp only [candPath, joinPath, String.data_append, List.append_assoc] at hdata
    have h1 := List.append_cancel_left hdata
    have h2 := List.append_cancel_left h1
    have h3 := List.append_cancel_left h2
    have hlen := congrArg List.length h3
    simp [List.length_append] at hlen
    omega
  | k + 1, 0 =>
    have hdata := congrArg String.data h
    simp only [candPath, joinPath, String.data_append, List.append_assoc] at hdata
    have h1 := List.append_cancel_left hdata
    have h2 := List.append_cancel_left h1
    have h3 := List.append_cancel_left h2
    have hlen := congrArg List.length h3
    simp [List.length_append] at hlen
    omega
  | k + 1, l + 1 =>
    have hdata := congrArg String.data h
    simp only [candPath, joinPath, String.data_append, List.append_assoc] at hdata
    have h1 := List.append_cancel_left hdata
    have h2 := List.append_cancel_left h1
    have h3 := List.append_cancel_left h2
    have h4 := List.append_cancel_left h3
    have h5 := List.append_cancel_right h4
    have h6 : toString (k + 1) = toString (l + 1) := by
      have h7 : (⟨(toString (k + 1)).data⟩ : String) = ⟨(toString (l + 1)).data⟩ := by
        rw [h5]
      simpa using h7
    have := natToString_inj h6
    omega

/-- Some candidate path with index at most the file count is unused. -/
theorem exists_free_cand (fs : List String) (name ext : String) :
    ∃ k, k ≤ fs.length ∧ candPath name ext k ∉ fs := by
  by_contra hcon
  push_neg at hcon
  have hnodup : ((List.range (fs.length + 1)).map (candPath name ext)).Nodup := by
    refine List.Nodup.map_on ?_ (List.nodup_range _)
    intro x _ y _ hxy
    exact candPath_inj hxy
  have hsub : ((List.range (fs.length + 1)).map (candPath name ext)).toFinset ⊆
      fs.toFinset := by
    intro s hs
    rw [List.mem_toFinset] at hs ⊢
    obtain ⟨k, hk, rfl⟩ := List.mem_map.mp hs
    have hk2 := List.mem_range.mp hk
    exact hcon k (by omega)
  have hcard := Finset.card_le_card hsub
  rw [List.toFinset_card_of_nodup hnodup] at hcard
  have hle := List.toFinset_card_le (l := fs)
  simp at hcard
  omega

/-- The collision loop returns the first unused candidate: starting at
index t with every earlier candidate known used and an unused candidate
within the remaining fuel, the result is a candidate that is unused while
all candidates before it are used. -/
theorem collideLoop_first_free (fs : List String) (name ext : String) :
    ∀ (fuel t : Nat), (∀ j < t, candPath name ext j ∈ fs) →
      (∃ d, d < fuel ∧ candPath name ext (t + d) ∉ fs) →
      ∃ k, collideLoop fs name ext fuel (t + 1) (candPath name ext t) =
            candPath name ext k ∧
          candPath name ext k ∉ fs ∧ ∀ j < k, candPath name ext j ∈ fs := by
  intro fuel
  induction fuel with
  | zero =>
    intro t _ hfree
    obtain ⟨d, hd, _⟩ := hfree
    omega
  | succ fuel ih =>
    intro t hbelow hfree
    rw [collideLoop]
    by_cases hmem : candPath name ext t ∈ fs
    · rw [if_pos hmem]
      have hbelow1 : ∀ j < t + 1, candPath name ext j ∈ fs := by
        intro j hj
        rcases Nat.lt_or_ge j t with hlt | hge
        · exact hbelow j hlt
        · have : j = t := by omega
          subst this
          exact hmem
      have hfree1 : ∃ d, d < fuel ∧ candPath name ext (t + 1 + d) ∉ fs := by
        obtain ⟨d, hd, hout⟩ := hfree
        match d with
        | 0 => exact absurd hmem (by simpa using hout)
        | d + 1 => exact ⟨d, by omega, by have : t + 1 + d = t + (d + 1) := by omega
                                          rw [this]; exact hout⟩
      have := ih (t + 1) hbelow1 hfree1
      simpa [candPath, joinPath] using this
    · rw [if_neg hmem]
      exact ⟨t, rfl, hmem, hbelow⟩

/-- The chosen download path is the first unused candidate. -/
theorem choosePath_first_free (fs : List String) (url : String) :
    ∃ k, choosePath fs url =
          candPath (splitext (basename url)).1 (splitext (basename url)).2 k ∧
        candPath (splitext (basename url)).1 (splitext (basename url)).2 k ∉ fs ∧
        ∀ j < k,
          candPath (splitext (basename url)).1 (splitext (basename url)).2 j ∈ fs := by
  have hbase : joinPath "downloads" (basename url) =
      candPath (splitext (basename url)).1 (splitext (basename url)).2 0 := by
    rw [candPath, splitext_concat]
  have hfree : ∃ d, d < fs.length + 1 ∧
      candPath (splitext (basename url)).1 (splitext (basename url)).2 (0 + d) ∉ fs := by
    obtain ⟨k, hk, hout⟩ := exists_free_cand fs (splitext (basename url)).1
      (splitext (basename url)).2
    exact ⟨k, by omega, by simpa using hout⟩
  have := collideLoop_first_free fs (splitext (basename url)).1
    (splitext (basename url)).2 (fs.length + 1) 0 (by omega) hfree
  rw [← hbase] at this
  exact this

theorem merge_nonempty_foldl (orig : List String) (new : List GifRecord) :
    ∀ acc : List GifRecord,
      new.foldl (fun acc gif => if gif.url ∈ orig then acc else acc ++ [gif]) acc
        = acc ++ new.filter (fun g => decide (g.url ∉ orig)) := by
  induction new with
  | nil => intro acc; simp
  | cons g gs ih =>
    intro acc
    by_cases hmem : g.url ∈ orig
    · simp [List.foldl_cons, List.filter_cons, hmem, ih]
    · simp [List.foldl_cons, List.filter_cons, hmem, ih]

/-! ### Claims -/

theorem dedupLoop_three_same_url :
    DataManager.dedupLoop
        [⟨0, 0, "s", "u", "IMAGE", none⟩, ⟨1, 1, "s", "u", "IMAGE", none⟩,
          ⟨2, 2, "s", "u", "IMAGE", none⟩] [] 0
      = [⟨0, 0, "s", "u", "IMAGE", none⟩, ⟨2, 2, "s", "u", "IMAGE", none⟩] := by
  rw [DataManager.dedupLoop]
  norm_num
  rw [DataManager.dedupLoop]
  norm_num [List.eraseIdx]
  rw [DataManager.dedupLoop]
  norm_num [List.eraseIdx]

/-- C1: merging a list of records into an empty catalog is documented to
drop every later duplicate of an already seen url, but popping the
duplicate while enumerating skips the element that follows it: merging
three records carrying the same url keeps the first and the third, so a
duplicate url survives in the adopted catalog. -/
theorem c1_initial_merge_keeps_a_duplicate :
    DataManager.merge (some [])
        [⟨0, 0, "s", "u", "IMAGE", none⟩, ⟨1, 1, "s", "u", "IMAGE", none⟩,
          ⟨2, 2, "s", "u", "IMAGE", none⟩]
      = [⟨0, 0, "s", "u", "IMAGE", none⟩, ⟨2, 2, "s", "u", "IMAGE", none⟩] ∧
    DataManager.merge (some [])
        [⟨0, 0, "s", "u", "IMAGE", none⟩, ⟨1, 1, "s", "u", "IMAGE", none⟩,
          ⟨2, 2, "s", "u", "IMAGE", none⟩]
      ≠ [⟨0, 0, "s", "u", "IMAGE", none⟩] := by
  have hrun : DataManager.merge (some [])
      [⟨0, 0, "s", "u", "IMAGE", none⟩, ⟨1, 1, "s", "u", "IMAGE", none⟩,
        ⟨2, 2, "s", "u", "IMAGE", none⟩]
      = [⟨0, 0, "s", "u", "IMAGE", none⟩, ⟨2, 2, "s", "u", "IMAGE", none⟩] := by
    rw [DataManager.merge]
    norm_num
    exact dedupLoop_three_same_url
  exact ⟨hrun, by rw [hrun]; decide⟩

/-- C2: merging into a non-empty catalog leaves every pre-existing entry
unchanged in place and appends exactly the incoming records whose url is
not among the urls the catalog already holds, in their incoming order. -/
theorem c2_merge_appends_exactly_new_urls (cat new : List GifRecord) (hne : cat ≠ []) :
    DataManager.merge (some cat) new =
      cat ++ new.filter (fun g => decide (g.url ∉ cat.map (·.url))) := by
  rw [DataManager.merge]
  simp only [List.length_eq_zero]
  rw [if_neg hne]
  exact merge_nonempty_foldl _ new cat

theorem c2_merge_appends_exactly_new_urls_witness :
    ([⟨0, 0, "s", "u", "IMAGE", none⟩] : List GifRecord) ≠ [] ∧
    DataManager.merge (some [⟨0, 0, "s", "u", "IMAGE", none⟩])
        [⟨5, 5, "t", "u", "IMAGE", none⟩, ⟨1, 1, "s", "v", "IMAGE", none⟩]
      = [⟨0, 0, "s", "u", "IMAGE", none⟩] ++
          [⟨5, 5, "t", "u", "IMAGE", none⟩,
            ⟨1, 1, "s", "v", "IMAGE", none⟩].filter
            (fun g => decide (g.url ∉
              ([⟨0, 0, "s", "u", "IMAGE", none⟩] : List GifRecord).map (·.url))) :=
  ⟨by decide, c2_merge_appends_exactly_new_urls _ _ (by decide)⟩

/-- C3: sanitizing a URL whose parsed path ends in ".gif" yields exactly
scheme, separator, authority and path with query and fragment dropped;
any other URL is returned unchanged; in particular the two concrete
examples of the specification evaluate as stated. -/
theorem c3_sanitized_url_spec :
    (∀ g : FavoritedGIF,
      (strEndsWith (urlparse g.url).path ".gif" = true →
        g.sanitized_url =
          (urlparse g.url).scheme ++ "://" ++ (urlparse g.url).netloc ++
            (urlparse g.url).path) ∧
      (strEndsWith (urlparse g.url).path ".gif" = false →
        g.sanitized_url = g.url)) ∧
    (mkGif "https://h/a.gif?x=1#y").sanitized_url = "https://h/a.gif" ∧
    (mkGif "https://h/view/1").sanitized_url = "https://h/view/1" := by
  refine ⟨fun g => ⟨fun h => ?_, fun h => ?_⟩, by decide, by decide⟩
  · simp [FavoritedGIF.sanitized_url, h]
  · simp [FavoritedGIF.sanitized_url, h]

theorem c3_sanitized_url_spec_witness :
    (mkGif "https://h/b.gif?tok=5").sanitized_url =
      (urlparse (mkGif "https://h/b.gif?tok=5").url).scheme ++ "://" ++
        (urlparse (mkGif "https://h/b.gif?tok=5").url).netloc ++
        (urlparse (mkGif "https://h/b.gif?tok=5").url).path :=
  (c3_sanitized_url_spec.1 (mkGif "https://h/b.gif?tok=5")).1 (by decide)

/-- C5: an entry whose path is already set is skipped entirely by
download: no request is issued, no file is written, and the entry is
returned unchanged. -/
theorem c5_download_skips_resolved_entry (g : FavoritedGIF) (p : String)
    (net : String → Except Unit String) (htmlMeta : String → List MetaTag)
    (fs : List String) (hp : g.path = some p) :
    g.download net htmlMeta fs = .ok (g, fs, []) := by
  simp [FavoritedGIF.download, hp]

theorem c5_download_skips_resolved_entry_witness :
    (⟨0, 0, "s", "https://h/a.gif", "IMAGE", some "downloads/a.gif"⟩ :
        FavoritedGIF).download (fun _ => .error ()) (fun _ => []) []
      = .ok (⟨0, 0, "s", "https://h/a.gif", "IMAGE", some "downloads/a.gif"⟩, [], []) :=
  c5_download_skips_resolved_entry _ "downloads/a.gif" _ _ _ rfl

/-- C7: deserializing a persisted record and serializing the entry back is
the identity on records of the persisted shape, an unset optional path
included, and a saved catalog loads back identically. -/
theorem c7_serialization_round_trip :
    (∀ r : GifRecord, (FavoritedGIF.init r).serialize = r) ∧
    (∀ l : List GifRecord, DataManager.loadFile (DataManager.saveFile l) = (l, true)) ∧
    (∀ l : List GifRecord,
      DataManager.serialize_gifs (DataManager.deserialize_gifs l) = l) := by
  refine ⟨fun r => rfl, fun l => rfl, fun l => ?_⟩
  have hid : FavoritedGIF.serialize ∘ FavoritedGIF.init = id := funext fun r => rfl
  simp [DataManager.serialize_gifs, DataManager.deserialize_gifs, List.map_map, hid]

/-- C4 counterexample: with a network that fails every transfer, the
download pass over two fresh direct-asset entries does not recover and
continue; it aborts the whole run with the propagated error, so the
second entry is never reached. -/
theorem c4_download_failure_aborts_run_cex :
    downloadAll (fun _ => .error ()) (fun _ => [])
        [mkGif "https://h/a.gif", mkGif "https://h/b.gif"] []
      = .error DlError.network := by
  rfl

/-- C4 amended: for every entry being downloaded, a transfer failure
while fetching the resolved URL's bytes leaves the entry without a path
and without a written file, but the exception propagates out of the
per-entry loop and aborts the run instead of continuing with the next
entry; this covers both places the source fetches bytes, a direct asset
whose sanitized URL is fetched and a tenor entry whose extracted content
URL is fetched. -/
theorem c4_amended_download_failure_propagates :
    (∀ (g : FavoritedGIF) (gs : List FavoritedGIF)
        (net : String → Except Unit String) (htmlMeta : String → List MetaTag)
        (fs : List String),
      g.path = none →
      strEndsWith g.sanitized_url ".gif" = true →
      net g.sanitized_url = .error () →
        downloadAll net htmlMeta (g :: gs) fs = .error DlError.network) ∧
    (∀ (g : FavoritedGIF) (gs : List FavoritedGIF)
        (net : String → Except Unit String) (htmlMeta : String → List MetaTag)
        (fs : List String) (body u : String),
      g.path = none →
      strEndsWith g.sanitized_url ".gif" = false →
      g.url_host = some "tenor.com" →
      net g.sanitized_url = .ok body →
      extract_tenor_url (htmlMeta body) = .ok (some u) →
      net u = .error () →
        downloadAll net htmlMeta (g :: gs) fs = .error DlError.network) := by
  constructor
  · intro g gs net htmlMeta fs hp hgif hnet
    rw [downloadAll]
    have hdl : g.download net htmlMeta fs = .error DlError.network := by
      simp only [FavoritedGIF.download, hp, hgif, if_true,
        FavoritedGIF.download_generic, hnet]
    rw [hdl]
  · intro g gs net htmlMeta fs body u hp hng hth hnet hext hu
    rw [downloadAll]
    have hdl : g.download net htmlMeta fs = .error DlError.network := by
      simp [FavoritedGIF.download, hp, hng, hth, hnet, hext,
        FavoritedGIF.download_generic, hu, Except.map]
    rw [hdl]

theorem c4_amended_download_failure_propagates_witness :
    downloadAll (fun _ => .error ()) (fun _ => [])
        [mkGif "https://h/c.gif", mkGif "https://h/d.gif"] []
      = .error DlError.network ∧
    downloadAll
        (fun u => if u = "https://tenor.com/view/x-1" then .ok "page" else .error ())
        (fun _ => [⟨[("itemprop", "contentUrl"), ("content", "https://m.t/x.mp4")]⟩])
        [mkGif "https://tenor.com/view/x-1", mkGif "https://h/d.gif"] []
      = .error DlError.network :=
  ⟨c4_amended_download_failure_propagates.1 _ _ _ _ _ rfl (by decide) rfl,
    c4_amended_download_failure_propagates.2 _ _ _ _ _ "page" "https://m.t/x.mp4"
      rfl (by decide) (by decide) rfl rfl rfl⟩

/-- C6: the tenor resolver returns the content attribute of the first
meta tag whose itemprop attribute equals contentUrl; when no tag matches
it returns nothing without raising, and for an embed-page entry whose
page lacks the tag the download pass leaves the entry untouched, with its
path unset, and continues with the remaining entries. -/
theorem c6_tenor_embed_page_resolution :
    (∀ tags : List MetaTag,
      (∀ t ∈ tags, t.attribGet "itemprop" ≠ some "contentUrl") →
        extract_tenor_url tags = .ok none) ∧
    (∀ (pre : List MetaTag) (t : MetaTag) (post : List MetaTag) (c : String),
      (∀ s ∈ pre, s.attribGet "itemprop" ≠ some "contentUrl") →
      t.attribGet "itemprop" = some "contentUrl" →
      t.attribGet "content" = some c →
        extract_tenor_url (pre ++ t :: post) = .ok (some c)) ∧
    (∀ (g : FavoritedGIF) (gs : List FavoritedGIF)
        (net : String → Except Unit String) (htmlMeta : String → List MetaTag)
        (fs : List String) (body : String),
      g.path = none →
      strEndsWith g.sanitized_url ".gif" = false →
      g.url_host = some "tenor.com" →
      net g.sanitized_url = .ok body →
      extract_tenor_url (htmlMeta body) = .ok none →
        downloadAll net htmlMeta (g :: gs) fs =
          (downloadAll net htmlMeta gs fs).map (fun r => (g :: r.1, r.2))) := by
  refine ⟨?_, ?_, ?_⟩
  · intro tags h
    induction tags with
    | nil => rfl
    | cons t ts ih =>
      rw [extract_tenor_url, if_neg (h t (List.mem_cons_self t ts))]
      exact ih (fun s hs => h s (List.mem_cons_of_mem t hs))
  · intro pre t post c hpre ht hc
    induction pre with
    | nil =>
      rw [List.nil_append, extract_tenor_url, if_pos ht, hc]
    | cons p ps ih =>
      rw [List.cons_append, extract_tenor_url,
        if_neg (hpre p (List.mem_cons_self p ps))]
      exact ih (fun s hs => hpre s (List.mem_cons_of_mem p hs))
  · intro g gs net htmlMeta fs body hp hng hth hnet hext
    rw [downloadAll]
    have hdl : g.download net htmlMeta fs = .ok (g, fs, [g.sanitized_url]) := by
      simp [FavoritedGIF.download, hp, hng, hth, hnet, hext]
    rw [hdl]
    cases hrec : downloadAll net htmlMeta gs fs with
    | error e => simp [hrec, Except.map]
    | ok r =>
      obtain ⟨gs2, fs2⟩ := r
      simp [hrec, Except.map]

theorem c6_tenor_embed_page_resolution_witness :
    downloadAll (fun _ => .ok "page") (fun _ => [])
        [mkGif "https://tenor.com/view/gone-123"] []
      = .ok ([mkGif "https://tenor.com/view/gone-123"], []) := by
  have h := c6_tenor_embed_page_resolution.2.2 (mkGif "https://tenor.com/view/gone-123")
    [] (fun _ => .ok "page") (fun _ => []) [] "page" rfl (by decide) (by decide) rfl rfl
  rw [h]
  rfl

/-- C8: when the derived file name is taken, the chosen path is the first
unused candidate of the sequence that inserts the numeric suffixes one,
two and so on immediately before the extension, every candidate before it
being taken; a second download named a.gif lands at a-1.gif and a third at
a-2.gif. -/
theorem c8_collision_suffix_spec :
    (∀ (fs : List String) (url : String),
      ∃ k, choosePath fs url =
            candPath (splitext (basename url)).1 (splitext (basename url)).2 k ∧
          candPath (splitext (basename url)).1 (splitext (basename url)).2 k ∉ fs ∧
          ∀ j < k,
            candPath (splitext (basename url)).1 (splitext (basename url)).2 j ∈ fs) ∧
    choosePath ["downloads/a.gif"] "https://h/a.gif" = "downloads/a-1.gif" ∧
    choosePath ["downloads/a.gif", "downloads/a-1.gif"] "https://h/a.gif"
      = "downloads/a-2.gif" :=
  ⟨choosePath_first_free, by decide, by decide⟩

theorem c8_collision_suffix_spec_witness :
    choosePath ["downloads/a.gif"] "https://h/a.gif" ∉ ["downloads/a.gif"] := by
  obtain ⟨k, heq, hfree, _⟩ :=
    c8_collision_suffix_spec.1 ["downloads/a.gif"] "https://h/a.gif"
  rw [heq]
  exact hfree

namespace BatchRefresher

theorem batches50_structure (q : List α) (hq : q ≠ []) :
    batches50 q = q.take 50 :: batches50 (q.drop 50) := by
  match q with
  | x :: xs => simp only [batches50]

theorem batches50_flatten (q : List α) : (batches50 q).flatten = q := by
  suffices h : ∀ (n : Nat) (l : List α), l.length ≤ n → (batches50 l).flatten = l from
    h q.length q le_rfl
  intro n
  induction n with
  | zero =>
    intro l hl
    have hn : l = [] := List.eq_nil_of_length_eq_zero (by omega)
    subst hn
    simp [batches50]
  | succ n ih =>
    intro l hl
    match l with
    | [] => simp [batches50]
    | x :: xs =>
      rw [batches50_structure _ (by simp)]
      rw [List.flatten_cons]
      rw [ih ((x :: xs).drop 50) (by simp at hl ⊢; omega)]
      exact List.take_append_drop 50 (x :: xs)

theorem applyBatch_append (es : List RefreshEntry) (a b : List (Nat × String))
    (ra rb : List String) (h : a.length = ra.length) :
    applyBatch (applyBatch es a ra) b rb = applyBatch es (a ++ b) (ra ++ rb) := by
  rw [applyBatch, applyBatch, applyBatch, List.zip_append h, List.foldl_append]

theorem refreshPass_elementwise (q : List (Nat × String))
    (es : List RefreshEntry) (f : String → String) :
    refreshPass es q (fun b => some (b.map f)) =
      applyBatch es q (q.map (fun p => f p.2)) := by
  suffices h : ∀ (n : Nat) (l : List (Nat × String)) (es : List RefreshEntry),
      l.length ≤ n →
      refreshPass es l (fun b => some (b.map f)) =
        applyBatch es l (l.map (fun p => f p.2)) from
    h q.length q es le_rfl
  intro n
  induction n with
  | zero =>
    intro l es hl
    have hn : l = [] := List.eq_nil_of_length_eq_zero (by omega)
    subst hn
    simp [refreshPass, batches50, applyBatch]
  | succ n ih =>
    intro l es hl
    match l with
    | [] => simp [refreshPass, batches50, applyBatch]
    | x :: xs =>
      have hstep : refreshPass es (x :: xs) (fun b => some (b.map f)) =
          refreshPass
            (applyBatch es ((x :: xs).take 50)
              ((((x :: xs).take 50).map (·.2)).map f))
            ((x :: xs).drop 50) (fun b => some (b.map f)) := by
        rw [refreshPass, refreshPass, batches50_structure _ (by simp),
          List.foldl_cons]
      rw [hstep]
      rw [ih ((x :: xs).drop 50) _ (by simp at hl ⊢; omega)]
      have hcomp : ((((x :: xs).take 50).map (·.2)).map f) =
          ((x :: xs).take 50).map (fun p => f p.2) := by
        rw [List.map_map]
        rfl
      rw [hcomp]
      rw [applyBatch_append _ _ _ _ _ (by simp)]
      rw [← List.map_append, List.take_append_drop]

end BatchRefresher

/-- C9: the refresh queue is cut into consecutive batches of at most
fifty in the original order, a queue of one hundred and twenty urls
producing exactly three batches of fifty, fifty and twenty; and when
every batch succeeds with one refreshed url per submitted url, each entry
receives the refreshed url at its own queue position, independent of the
batch boundaries. -/
theorem c9_batch_refresh_spec :
    (∀ q : List (Nat × String), q.length = 120 →
      (BatchRefresher.batches50 q).map List.length = [50, 50, 20]) ∧
    (∀ q : List (Nat × String), (BatchRefresher.batches50 q).flatten = q) ∧
    (∀ (es : List BatchRefresher.RefreshEntry) (q : List (Nat × String))
        (f : String → String),
      BatchRefresher.refreshPass es q (fun b => some (b.map f)) =
        BatchRefresher.applyBatch es q (q.map (fun p => f p.2))) := by
  refine ⟨?_, fun q => BatchRefresher.batches50_flatten q,
    fun es q f => BatchRefresher.refreshPass_elementwise q es f⟩
  intro q hq
  have e1 : q ≠ [] := by
    intro h
    rw [h] at hq
    simp at hq
  rw [BatchRefresher.batches50_structure _ e1]
  have hd1 : (q.drop 50).length = 70 := by simp [hq]
  have e2 : q.drop 50 ≠ [] := by
    intro h
    rw [h] at hd1
    simp at hd1
  rw [BatchRefresher.batches50_structure _ e2]
  have hd2 : ((q.drop 50).drop 50).length = 20 := by simp [hq]
  have e3 : (q.drop 50).drop 50 ≠ [] := by
    intro h
    rw [h] at hd2
    simp at hd2
  rw [BatchRefresher.batches50_structure _ e3]
  have hd3 : (((q.drop 50).drop 50).drop 50) = [] := by
    apply List.eq_nil_of_length_eq_zero
    simp [hq]
  rw [hd3]
  simp [BatchRefresher.batches50, List.length_take, hq, hd1, hd2]

theorem c9_batch_refresh_spec_witness :
    (BatchRefresher.batches50
        ((List.range 120).map (fun i => (i, "u")))).map List.length
      = [50, 50, 20] :=
  c9_batch_refresh_spec.1 _ (by simp)

theorem dedupLoopH_at :
    ∀ (n : Nat) (st : Heap) (r : Nat) (temp : List String) (i : Nat),
      (st r).length - i ≤ n →
      dedupLoopH st r temp i r = DataManager.dedupLoop (st r) temp i := by
  intro n
  induction n with
  | zero =>
    intro st r temp i h
    rw [dedupLoopH, DataManager.dedupLoop]
    have hge : ¬ i < (st r).length := by omega
    rw [dif_neg hge, dif_neg hge]
  | succ n ih =>
    intro st r temp i h
    rw [dedupLoopH, DataManager.dedupLoop]
    by_cases hlt : i < (st r).length
    · rw [dif_pos hlt, dif_pos hlt]
      by_cases hmem : ((st r).get ⟨i, hlt⟩).url ∈ temp
      · rw [if_pos hmem, if_pos hmem]
        have hupd : (st.popAt r i) r = (st r).eraseIdx i := by
          simp [Heap.popAt]
        rw [ih (st.popAt r i) r temp (i + 1)
          (by rw [hupd]; have := List.length_eraseIdx_of_lt hlt; omega)]
        rw [hupd]
      · rw [if_neg hmem, if_neg hmem]
        exact ih st r (temp ++ [((st r).get ⟨i, hlt⟩).url]) (i + 1) (by omega)
    · rw [dif_neg hlt, dif_neg hlt]

/-- A heap whose every address holds the same three records with one
shared url (the concrete input of the aliasing claim). -/
def dupHeap : Heap := fun _ =>
  [⟨0, 0, "s", "u", "IMAGE", none⟩, ⟨1, 1, "s", "u", "IMAGE", none⟩,
    ⟨2, 2, "s", "u", "IMAGE", none⟩]

/-- C10: the initial-load branch of merge pops duplicate-url records out
of the very list object the caller passed (the heap cell at the caller's
address is rewritten to the popped list, and changes for an input with
duplicates), and the catalog field afterwards holds the caller's address
itself rather than a copy, so an append performed later through the
catalog reference is visible when reading the caller's reference. -/
theorem c10_initial_merge_aliases_input :
    (∀ (st : Heap) (r : Nat), (mergeEmptyH st r).2 = r) ∧
    (∀ (st : Heap) (r : Nat),
      (mergeEmptyH st r).1 r = DataManager.dedupLoop (st r) [] 0) ∧
    (mergeEmptyH dupHeap 0).1 0 ≠ dupHeap 0 ∧
    (∀ (st : Heap) (r : Nat) (gif : GifRecord),
      catalogAppend (mergeEmptyH st r).1 (mergeEmptyH st r).2 gif r =
        (mergeEmptyH st r).1 r ++ [gif]) := by
  refine ⟨fun st r => rfl,
    fun st r => dedupLoopH_at (st r).length st r [] 0 (by omega), ?_, ?_⟩
  · have h2 : (mergeEmptyH dupHeap 0).1 0 = DataManager.dedupLoop (dupHeap 0) [] 0 :=
      dedupLoopH_at (dupHeap 0).length dupHeap 0 [] 0 (by omega)
    rw [h2]
    have h3 : DataManager.dedupLoop (dupHeap 0) [] 0
        = [⟨0, 0, "s", "u", "IMAGE", none⟩, ⟨2, 2, "s", "u", "IMAGE", none⟩] :=
      dedupLoop_three_same_url
    rw [h3]
    decide
  · intro st r gif
    simp [catalogAppend, mergeEmptyH, Function.update_same]

end GifDl
